import Mathlib

/-!
Verification of the rembrandt orchestration core against its specification.

Shallow embedding of the Rust sources:
* `src/src/daemon/buffer.rs` and `src/gui/src-tauri/src/buffer.rs`
  (identical `RingBuffer` implementations) as `Rembrandt.RingBuffer`;
* `src/gui/src-tauri/src/session.rs` / `src/src/daemon/session.rs`
  (`PtySession::poll` / `kill` are identical) as `Rembrandt.Sess`;
* `src/gui/src-tauri/src/manager.rs` (`SessionManager::poll_all`,
  `cleanup`) and `src/src/daemon/manager.rs` (`cleanup`, `cleanup_all`);
* `src/src/worktree/mod.rs` and `src/gui/src-tauri/src/worktree.rs`
  (`WorktreeManager::create_worktree`) over an abstract git state;
* `src/src/state/mod.rs` (`StateStore::upsert_session` / `get_session`);
* `src/src/orchestrator/mod.rs` (`spawn_agent`, `steer_agent`).

Bytes are modelled as `Nat`, byte buffers as `List Nat`.  External
child-process behaviour (`child.try_wait()`, `child.kill()`), runtime
adapters and clocks are inputs of the embedded functions, so every
theorem quantifies over them.
-/

namespace Rembrandt

/-! ## RingBuffer (src/src/daemon/buffer.rs, src/gui/src-tauri/src/buffer.rs) -/

/-- Model of `RingBuffer`: underlying storage, capacity, write position and
total bytes written. -/
structure RingBuffer where
  data : List Nat
  capacity : Nat
  writePos : Nat
  totalWritten : Nat
  deriving Repr, DecidableEq

/-- `RingBuffer::new(capacity)`. -/
def RingBuffer.new (capacity : Nat) : RingBuffer :=
  { data := [], capacity := capacity, writePos := 0, totalWritten := 0 }

/-- The input clamp at the top of `RingBuffer::write`: if the data is larger
than the capacity, only the last `capacity` bytes are kept. -/
def truncate (cap : Nat) (input : List Nat) : List Nat :=
  if input.length > cap then input.drop (input.length - cap) else input

/-- The `self.data.len() < self.capacity` branch of `RingBuffer::write`:
the buffer is not full yet, so it is extended, possibly starting to wrap. -/
def RingBuffer.writeFill (b : RingBuffer) (data : List Nat) : RingBuffer :=
  let spaceLeft := b.capacity - b.data.length
  if data.length ≤ spaceLeft then
    { b with data := b.data ++ data, writePos := (b.data ++ data).length }
  else
    let filled := b.data ++ data.take spaceLeft
    let remaining := data.drop spaceLeft
    { b with data := remaining ++ filled.drop remaining.length,
             writePos := remaining.length }

/-- The `else` branch of `RingBuffer::write`: the buffer is full, so new data
overwrites old data with wraparound. -/
def RingBuffer.writeWrap (b : RingBuffer) (data : List Nat) : RingBuffer :=
  let spaceToEnd := b.capacity - b.writePos
  if data.length ≤ spaceToEnd then
    let nd := b.data.take b.writePos ++ data ++ b.data.drop (b.writePos + data.length)
    let np := b.writePos + data.length
    { b with data := nd, writePos := if np ≥ b.capacity then 0 else np }
  else
    let afterEnd := b.data.take b.writePos ++ data.take spaceToEnd
    let remaining := data.drop spaceToEnd
    { b with data := remaining ++ afterEnd.drop remaining.length,
             writePos := remaining.length }

/-- `RingBuffer::write`.  Mirrors the source control flow: empty input is a
no-op; the input is clamped to the last `capacity` bytes; a not-yet-full
buffer is extended (possibly starting to wrap); a full buffer is overwritten
with wraparound.  Note the source increments `total_written` by the length of
the clamped slice (the local `data` is shadowed at the top of `write`). -/
def RingBuffer.write (b : RingBuffer) (input : List Nat) : RingBuffer :=
  if input.isEmpty then b
  else
    let data := truncate b.capacity input
    let b1 := if b.data.length < b.capacity then b.writeFill data else b.writeWrap data
    { b1 with totalWritten := b.totalWritten + data.length }

/-- `RingBuffer::has_wrapped`: `total_written > capacity`. -/
def RingBuffer.hasWrapped (b : RingBuffer) : Bool :=
  decide (b.capacity < b.totalWritten)

/-- `RingBuffer::read_all`: chronological read-out. -/
def RingBuffer.readAll (b : RingBuffer) : List Nat :=
  if b.data.isEmpty then []
  else if b.hasWrapped then b.data.drop b.writePos ++ b.data.take b.writePos
  else b.data.take b.writePos

/-- `RingBuffer::len`: `min(total_written, capacity)`. -/
def RingBuffer.len (b : RingBuffer) : Nat :=
  min b.totalWritten b.capacity

/-- `RingBuffer::is_empty`. -/
def RingBuffer.isEmpty (b : RingBuffer) : Bool :=
  decide (b.totalWritten = 0)

/-- The last `n` elements of a list, in order. -/
def lastN (n : Nat) (l : List α) : List α :=
  l.drop (l.length - n)

/-- Fold a sequence of writes into a buffer. -/
def RingBuffer.writeAll (b : RingBuffer) (ws : List (List Nat)) : RingBuffer :=
  ws.foldl RingBuffer.write b

example : (RingBuffer.new 100).capacity = 100 ∧ (RingBuffer.new 100).isEmpty = true := by
  decide

example :
    ((RingBuffer.new 100).write [1, 2, 3, 4, 5]).readAll = [1, 2, 3, 4, 5] := by decide

example :
    (((RingBuffer.new 10).write [1, 2, 3, 4, 5, 6, 7, 8]).write [20, 21, 22, 23]).readAll
      = [3, 4, 5, 6, 7, 8, 20, 21, 22, 23] := by decide

example :
    ((RingBuffer.new 5).writeAll [[1, 2, 3], [4, 5, 6, 7]]).readAll = [3, 4, 5, 6, 7] := by
  decide

/-! ### Ring buffer laws -/

theorem length_truncate (cap : Nat) (w : List Nat) :
    (truncate cap w).length = min w.length cap := by
  unfold truncate
  split
  · simp only [List.length_drop]; omega
  · omega

theorem truncate_of_le (cap : Nat) (w : List Nat) (h : w.length ≤ cap) :
    truncate cap w = w := by
  unfold truncate
  rw [if_neg (by omega)]

theorem truncate_of_gt (cap : Nat) (w : List Nat) (h : cap < w.length) :
    truncate cap w = lastN cap w := by
  unfold truncate lastN
  rw [if_pos (by omega)]

theorem length_lastN (n : Nat) (l : List α) : (lastN n l).length = min n l.length := by
  unfold lastN
  simp only [List.length_drop]
  omega

theorem lastN_of_le (n : Nat) (l : List α) (h : l.length ≤ n) : lastN n l = l := by
  unfold lastN
  rw [Nat.sub_eq_zero_of_le h, List.drop_zero]

theorem lastN_append_right (n : Nat) (l₁ l₂ : List α) (h : n ≤ l₂.length) :
    lastN n (l₁ ++ l₂) = lastN n l₂ := by
  unfold lastN
  rw [List.drop_append_eq_append_drop, List.drop_eq_nil_of_le (by simp; omega),
    List.nil_append]
  congr 1
  simp only [List.length_append]
  omega

/-- Shifting the window of the last `c` elements over an appended block. -/
theorem lastN_append_assoc (c : Nat) (T d : List α) (h1 : c ≤ T.length)
    (h2 : d.length ≤ c) :
    lastN c (T ++ d) = (lastN c T).drop d.length ++ d := by
  unfold lastN
  rw [List.drop_append_eq_append_drop, List.drop_drop]
  have h0 : (T ++ d).length - c - T.length = 0 := by simp [List.length_append]; omega
  rw [h0, List.drop_zero]
  congr 2
  simp only [List.length_append]
  omega

theorem drop_append_left (n : Nat) (l₁ l₂ : List α) (h : l₁.length ≤ n) :
    (l₁ ++ l₂).drop n = l₂.drop (n - l₁.length) := by
  rw [List.drop_append_eq_append_drop, List.drop_eq_nil_of_le h, List.nil_append]

/-- The data-layout invariant tying a `RingBuffer` to the concatenation `T`
of the clamped inputs written so far: `total_written` counts `T`; the storage
holds `min |T| capacity` bytes; before the buffer is full the write position
equals `|T|`; and reading from `write_pos` around the ring yields the last
`min |T| capacity` bytes of `T`. -/
def RingInv (b : RingBuffer) (T : List Nat) : Prop :=
  b.totalWritten = T.length ∧
  b.data.length = min T.length b.capacity ∧
  b.writePos ≤ b.capacity ∧
  (T.length ≤ b.capacity → b.writePos = T.length) ∧
  b.data.drop b.writePos ++ b.data.take b.writePos = lastN (min T.length b.capacity) T

theorem ringInv_new (c : Nat) : RingInv (RingBuffer.new c) [] := by
  refine ⟨rfl, by simp [RingBuffer.new], by simp [RingBuffer.new], fun _ => rfl, ?_⟩
  simp [RingBuffer.new, lastN]

theorem writeFill_of_le (b : RingBuffer) (data : List Nat)
    (h : data.length ≤ b.capacity - b.data.length) :
    b.writeFill data
      = { b with data := b.data ++ data, writePos := (b.data ++ data).length } := by
  unfold RingBuffer.writeFill
  rw [if_pos h]

theorem writeFill_of_gt (b : RingBuffer) (data : List Nat)
    (h : ¬ data.length ≤ b.capacity - b.data.length) :
    b.writeFill data
      = { b with
            data := data.drop (b.capacity - b.data.length) ++
              (b.data ++ data.take (b.capacity - b.data.length)).drop
                (data.drop (b.capacity - b.data.length)).length,
            writePos := (data.drop (b.capacity - b.data.length)).length } := by
  unfold RingBuffer.writeFill
  rw [if_neg h]

theorem writeWrap_of_le (b : RingBuffer) (data : List Nat)
    (h : data.length ≤ b.capacity - b.writePos) :
    b.writeWrap data
      = { b with
            data := b.data.take b.writePos ++ data ++
              b.data.drop (b.writePos + data.length),
            writePos :=
              if b.writePos + data.length ≥ b.capacity then 0
              else b.writePos + data.length } := by
  unfold RingBuffer.writeWrap
  rw [if_pos h]

theorem writeWrap_of_gt (b : RingBuffer) (data : List Nat)
    (h : ¬ data.length ≤ b.capacity - b.writePos) :
    b.writeWrap data
      = { b with
            data := data.drop (b.capacity - b.writePos) ++
              (b.data.take b.writePos ++ data.take (b.capacity - b.writePos)).drop
                (data.drop (b.capacity - b.writePos)).length,
            writePos := (data.drop (b.capacity - b.writePos)).length } := by
  unfold RingBuffer.writeWrap
  rw [if_neg h]

theorem write_nil (b : RingBuffer) : b.write [] = b := by
  unfold RingBuffer.write
  rfl

theorem write_of_ne_nil (b : RingBuffer) (input : List Nat) (h : input ≠ []) :
    b.write input
      = { (if b.data.length < b.capacity then
             b.writeFill (truncate b.capacity input)
           else b.writeWrap (truncate b.capacity input)) with
          totalWritten := b.totalWritten + (truncate b.capacity input).length } := by
  unfold RingBuffer.write
  rw [if_neg (by simp [List.isEmpty_iff, h])]

/-- `write` preserves the data-layout invariant: writing `w` appends the
clamped input to the abstract stream. -/
theorem ringInv_write (b : RingBuffer) (T w : List Nat) (h : RingInv b T) :
    RingInv (b.write w) (T ++ truncate b.capacity w) := by
  obtain ⟨htw, hlen, hwp, hfill, hrot⟩ := h
  by_cases hw : w = []
  · subst hw
    rw [write_nil]
    have hnil : truncate b.capacity [] = [] := by simp [truncate]
    rw [hnil, List.append_nil]
    exact ⟨htw, hlen, hwp, hfill, hrot⟩
  · rw [write_of_ne_nil b w hw]
    set c := b.capacity with hc
    set d := truncate c w with hdd
    have hdlen : d.length = min w.length c := length_truncate c w
    have hwlen : 1 ≤ w.length := List.length_pos.mpr hw
    have hdc : d.length ≤ c := by omega
    by_cases h1 : b.data.length < c
    · -- buffer not yet full: `write_fill`
      rw [if_pos h1]
      have hTlt : T.length < c := by omega
      have hwpT : b.writePos = T.length := hfill (Nat.le_of_lt hTlt)
      have hdl : b.data.length = T.length := by omega
      have hdataT : b.data = T := by
        have h5 := hrot
        rw [hwpT, List.drop_eq_nil_of_le (by omega), List.take_of_length_le (by omega),
          List.nil_append, Nat.min_eq_left (Nat.le_of_lt hTlt)] at h5
        rw [h5, lastN_of_le _ _ (Nat.le_refl _)]
      by_cases h2 : d.length ≤ c - b.data.length
      · -- fits entirely in the remaining space
        rw [writeFill_of_le b d h2]
        refine ⟨?_, ?_, ?_, ?_, ?_⟩ <;> dsimp only
        · simp only [List.length_append]; omega
        · simp only [List.length_append]; omega
        · simp only [List.length_append]; omega
        · simp only [List.length_append]; omega
        · rw [List.drop_length, List.take_length, List.nil_append, hdataT,
            Nat.min_eq_left (by simp only [List.length_append]; omega),
            lastN_of_le _ _ (Nat.le_refl _)]
      · -- partially fits: starts wrapping
        rw [writeFill_of_gt b d h2]
        refine ⟨?_, ?_, ?_, ?_, ?_⟩ <;> dsimp only
        · simp only [List.length_append]; omega
        · simp only [List.length_append, List.length_drop, List.length_take]; omega
        · simp only [List.length_drop]; omega
        · simp only [List.length_append, List.length_drop]; omega
        · rw [List.drop_append_eq_append_drop, List.take_append_eq_append_take,
            List.drop_length, List.take_length, Nat.sub_self, List.drop_zero,
            List.take_zero, List.nil_append, List.append_nil, hdataT]
          rw [List.drop_append_eq_append_drop]
          have hz : (d.drop (c - T.length)).length - T.length = 0 := by
            simp only [List.length_drop]; omega
          rw [hz, List.drop_zero, List.append_assoc, List.take_append_drop,
            Nat.min_eq_right (by simp only [List.length_append]; omega)]
          unfold lastN
          rw [List.drop_append_eq_append_drop]
          have hz2 : (T ++ d).length - c - T.length = 0 := by
            simp only [List.length_append]; omega
          rw [hz2, List.drop_zero]
          congr 2
          simp only [List.length_drop, List.length_append]
          omega
    · -- buffer full: `write_wrap`
      rw [if_neg h1]
      have hblc : b.data.length = c := by omega
      have hTge : c ≤ T.length := by omega
      have hrotc : b.data.drop b.writePos ++ b.data.take b.writePos = lastN c T := by
        rw [hrot, Nat.min_eq_right hTge]
      have hlast : lastN c (T ++ d)
          = (b.data.drop b.writePos ++ b.data.take b.writePos).drop d.length ++ d := by
        rw [lastN_append_assoc c T d hTge hdc, hrotc]
      by_cases h2 : d.length ≤ c - b.writePos
      · -- fits before the end of the ring
        rw [writeWrap_of_le b d h2]
        refine ⟨?_, ?_, ?_, ?_, ?_⟩ <;> dsimp only
        · simp only [List.length_append]; omega
        · simp only [List.length_append, List.length_take, List.length_drop]; omega
        · split <;> omega
        · intro hcon
          simp only [List.length_append] at hcon ⊢
          split <;> omega
        · by_cases hnp : b.writePos + d.length ≥ c
          · rw [if_pos hnp, List.drop_zero, List.take_zero, List.append_nil,
              Nat.min_eq_right (by simp only [List.length_append]; omega), ← hc, hlast]
            have hC : List.drop (b.writePos + d.length) b.data = [] :=
              List.drop_eq_nil_of_le (by omega)
            rw [hC, List.append_nil, List.drop_append_eq_append_drop, List.drop_drop]
            rw [hC, List.nil_append]
            have hz : d.length - (List.drop b.writePos b.data).length = 0 := by
              simp only [List.length_drop]; omega
            rw [hz, List.drop_zero]
          · rw [if_neg hnp,
              Nat.min_eq_right (by simp only [List.length_append]; omega), ← hc, hlast]
            rw [drop_append_left _ _ _
              (by simp only [List.length_append, List.length_take]; omega)]
            have hz0 : b.writePos + d.length
                - (List.take b.writePos b.data ++ d).length = 0 := by
              simp only [List.length_append, List.length_take]; omega
            rw [hz0, List.drop_zero]
            rw [List.take_append_of_le_length
                (by simp only [List.length_append, List.length_take]; omega),
              List.take_of_length_le
                (by simp only [List.length_append, List.length_take]; omega)]
            rw [List.drop_append_of_le_length (by simp only [List.length_drop]; omega),
              List.drop_drop, List.append_assoc]
      · -- wraps past the end of the ring
        rw [writeWrap_of_gt b d h2]
        refine ⟨?_, ?_, ?_, ?_, ?_⟩ <;> dsimp only
        · simp only [List.length_append]; omega
        · simp only [List.length_append, List.length_take, List.length_drop]; omega
        · simp only [List.length_drop]; omega
        · simp only [List.length_append, List.length_drop]; omega
        · rw [Nat.min_eq_right (by simp only [List.length_append]; omega), ← hc, hlast]
          rw [drop_append_left _ _ _ (Nat.le_refl _), Nat.sub_self, List.drop_zero]
          rw [List.take_append_of_le_length (Nat.le_refl _), List.take_length]
          rw [List.drop_append_of_le_length
            (by simp only [List.length_drop, List.length_take]; omega)]
          rw [List.append_assoc, List.take_append_drop]
          rw [drop_append_left _ _ _ (by simp only [List.length_drop]; omega)]
          have hidx : d.length - (List.drop b.writePos b.data).length
              = (d.drop (c - b.writePos)).length := by
            simp only [List.length_drop]; omega
          rw [hidx]

theorem capacity_writeFill (b : RingBuffer) (d : List Nat) :
    (b.writeFill d).capacity = b.capacity := by
  by_cases h : d.length ≤ b.capacity - b.data.length
  · rw [writeFill_of_le b d h]
  · rw [writeFill_of_gt b d h]

theorem capacity_writeWrap (b : RingBuffer) (d : List Nat) :
    (b.writeWrap d).capacity = b.capacity := by
  by_cases h : d.length ≤ b.capacity - b.writePos
  · rw [writeWrap_of_le b d h]
  · rw [writeWrap_of_gt b d h]

theorem capacity_write (b : RingBuffer) (w : List Nat) :
    (b.write w).capacity = b.capacity := by
  by_cases hw : w = []
  · rw [hw, write_nil]
  · rw [write_of_ne_nil b w hw]
    by_cases h1 : b.data.length < b.capacity
    · rw [if_pos h1]; exact capacity_writeFill b _
    · rw [if_neg h1]; exact capacity_writeWrap b _

theorem capacity_writeAll (ws : List (List Nat)) :
    ∀ b : RingBuffer, (b.writeAll ws).capacity = b.capacity := by
  induction ws with
  | nil => intro b; rfl
  | cons w ws ih =>
    intro b
    have h1 : b.writeAll (w :: ws) = (b.write w).writeAll ws := rfl
    rw [h1, ih, capacity_write]

theorem capacity_new (c : Nat) : (RingBuffer.new c).capacity = c := rfl

/-- The invariant holds after any sequence of writes, with the abstract
stream extended by the clamped inputs. -/
theorem ringInv_writeAll (ws : List (List Nat)) :
    ∀ (b : RingBuffer) (T : List Nat), RingInv b T →
      RingInv (b.writeAll ws) (T ++ (ws.map (truncate b.capacity)).flatten) := by
  induction ws with
  | nil =>
    intro b T h
    simpa [RingBuffer.writeAll] using h
  | cons w ws ih =>
    intro b T h
    have h1 := ih (b.write w) (T ++ truncate b.capacity w) (ringInv_write b T w h)
    rw [capacity_write] at h1
    have h2 : b.writeAll (w :: ws) = (b.write w).writeAll ws := rfl
    rw [h2]
    simpa [List.append_assoc] using h1

/-- `read_all` on a buffer satisfying the invariant returns the last
`min |T| capacity` bytes of the abstract stream. -/
theorem readAll_of_inv (b : RingBuffer) (T : List Nat) (h : RingInv b T) :
    b.readAll = lastN (min T.length b.capacity) T := by
  obtain ⟨htw, hlen, hwp, hfill, hrot⟩ := h
  unfold RingBuffer.readAll
  split_ifs with hemp hwr
  · rw [List.isEmpty_iff] at hemp
    rw [hemp] at hlen
    have hmin : min T.length b.capacity = 0 := by
      simp only [List.length_nil] at hlen
      omega
    rw [hmin]
    unfold lastN
    rw [Nat.sub_zero, List.drop_length]
  · exact hrot
  · have hwr2 : b.totalWritten ≤ b.capacity := by
      unfold RingBuffer.hasWrapped at hwr
      simp only [decide_eq_true_eq] at hwr
      omega
    have hTle : T.length ≤ b.capacity := by omega
    have hwpT := hfill hTle
    have h5 := hrot
    rw [hwpT, List.drop_eq_nil_of_le (by omega), List.nil_append] at h5
    rw [hwpT]
    exact h5

/-- Clamping is invisible when the whole stream fits in the capacity. -/
theorem trunc_flatten_eq_of_le (c : Nat) (ws : List (List Nat))
    (h : ws.flatten.length ≤ c) :
    (ws.map (truncate c)).flatten = ws.flatten := by
  induction ws with
  | nil => rfl
  | cons w ws ih =>
    simp only [List.flatten_cons, List.length_append] at h
    simp only [List.map_cons, List.flatten_cons]
    rw [truncate_of_le c w (by omega), ih (by omega)]

/-- The clamped stream and the raw stream agree on `min length capacity`. -/
theorem min_length_trunc_flatten (c : Nat) (ws : List (List Nat)) :
    min ((ws.map (truncate c)).flatten).length c = min ws.flatten.length c := by
  induction ws using List.reverseRecOn with
  | nil => rfl
  | append_singleton ws w ih =>
    simp only [List.map_append, List.flatten_append, List.length_append,
      List.map_cons, List.flatten_cons, List.map_nil, List.flatten_nil,
      List.append_nil, length_truncate] at ih ⊢
    omega

/-- The clamped stream and the raw stream have the same last `c` bytes. -/
theorem lastN_trunc_flatten (c : Nat) (ws : List (List Nat)) :
    lastN c ((ws.map (truncate c)).flatten) = lastN c ws.flatten := by
  induction ws using List.reverseRecOn with
  | nil => rfl
  | append_singleton ws w ih =>
    have hmap : ((ws ++ [w]).map (truncate c)).flatten
        = (ws.map (truncate c)).flatten ++ truncate c w := by simp
    have hfl : (ws ++ [w]).flatten = ws.flatten ++ w := by simp
    rw [hmap, hfl]
    by_cases hwc : w.length ≤ c
    · rw [truncate_of_le c w hwc]
      by_cases hTc : c ≤ ws.flatten.length
      · have hTc2 : c ≤ ((ws.map (truncate c)).flatten).length := by
          have := min_length_trunc_flatten c ws
          omega
        rw [lastN_append_assoc c _ w hTc2 hwc, lastN_append_assoc c _ w hTc hwc, ih]
      · rw [trunc_flatten_eq_of_le c ws (by omega)]
    · have hgt : c < w.length := by omega
      rw [truncate_of_gt c w hgt]
      rw [lastN_append_right c _ _ (by rw [length_lastN]; omega),
        lastN_append_right c _ _ (by omega)]
      rw [lastN_of_le _ _ (by rw [length_lastN]; omega)]

/-- C1: for every capacity `c > 0` and every sequence of writes `w₁,…,wₙ`
applied to a fresh `RingBuffer::new(c)`, `read_all()` returns exactly the
last `min(|S|, c)` bytes of the concatenation `S = w₁‖…‖wₙ`, in write order
(for `|S| < c` this is `S` itself). -/
theorem ringBuffer_law (c : Nat) (_hc : 0 < c) (ws : List (List Nat)) :
    ((RingBuffer.new c).writeAll ws).readAll
      = lastN (min ws.flatten.length c) ws.flatten := by
  have hinv := ringInv_writeAll ws (RingBuffer.new c) [] (ringInv_new c)
  rw [List.nil_append, capacity_new] at hinv
  have hra := readAll_of_inv _ _ hinv
  rw [capacity_writeAll, capacity_new] at hra
  rw [hra]
  by_cases hS : ws.flatten.length ≤ c
  · rw [trunc_flatten_eq_of_le c ws hS]
  · have hm := min_length_trunc_flatten c ws
    have h1 : min ((ws.map (truncate c)).flatten).length c = c := by omega
    have h2 : min ws.flatten.length c = c := by omega
    rw [h1, h2, lastN_trunc_flatten]

/-- Witness for C1: the law applied to capacity 3 and the two writes
`[1, 2]` and `[3, 4, 5]`, whose concatenation has length 5. -/
theorem ringBuffer_law_witness :
    0 < 3 ∧
      ((RingBuffer.new 3).writeAll [[1, 2], [3, 4, 5]]).readAll
        = lastN (min ([[1, 2], [3, 4, 5]] : List (List Nat)).flatten.length 3)
            ([[1, 2], [3, 4, 5]] : List (List Nat)).flatten :=
  ⟨by decide, ringBuffer_law 3 (by decide) [[1, 2], [3, 4, 5]]⟩

/-- C3 counterexample: a single 20-byte write into a fresh capacity-5 buffer
leaves `total_written = 5` (the clamped length, not `L = 20`) and
`has_wrapped = false`, refuting the claim at this input ( `write` shadows
`data` with the clamped slice before `total_written += data.len()` ). -/
theorem oversize_write_counterexample :
    ¬ ((((RingBuffer.new 5).write (List.range 20)).totalWritten = 20)
        ∧ (((RingBuffer.new 5).write (List.range 20)).hasWrapped = true)) := by
  decide

/-- C3 amended: a single write of length `L > c` into a fresh buffer of
capacity `c > 0` leaves `read_all` equal to the last `c` bytes of the input,
`total_written = c` (the length of the retained slice, not `L`), and
`has_wrapped = false`. -/
theorem oversize_write (c : Nat) (w : List Nat) (hc : 0 < c) (hw : c < w.length) :
    ((RingBuffer.new c).write w).readAll = lastN c w ∧
    ((RingBuffer.new c).write w).totalWritten = c ∧
    ((RingBuffer.new c).write w).hasWrapped = false := by
  have hinv := ringInv_write (RingBuffer.new c) [] w (ringInv_new c)
  rw [List.nil_append, capacity_new] at hinv
  obtain ⟨htw, hlen, hwpz, hfill, hrot⟩ := hinv
  have hlt : (truncate c w).length = c := by rw [length_truncate]; omega
  refine ⟨?_, ?_, ?_⟩
  · have h1 := ringBuffer_law c hc [w]
    have h2 : ([w] : List (List Nat)).flatten = w := by simp
    rw [h2] at h1
    have h3 : (RingBuffer.new c).writeAll [w] = (RingBuffer.new c).write w := rfl
    rw [h3] at h1
    rw [h1, Nat.min_eq_right (by omega)]
  · rw [htw, hlt]
  · unfold RingBuffer.hasWrapped
    rw [htw, hlt, capacity_write, capacity_new]
    simp

/-- Witness for the amended C3 at capacity 2 and a 4-byte input. -/
theorem oversize_write_witness :
    0 < 2 ∧ 2 < ([7, 8, 9, 9] : List Nat).length ∧
      (((RingBuffer.new 2).write [7, 8, 9, 9]).readAll = lastN 2 [7, 8, 9, 9] ∧
        ((RingBuffer.new 2).write [7, 8, 9, 9]).totalWritten = 2 ∧
        ((RingBuffer.new 2).write [7, 8, 9, 9]).hasWrapped = false) :=
  ⟨by decide, by decide, oversize_write 2 [7, 8, 9, 9] (by decide) (by decide)⟩

/-! ## PtySession (src/gui/src-tauri/src/session.rs; `poll`, `kill` and
`is_running` are identical in src/src/daemon/session.rs) -/

/-- `SessionStatus`: Running, Exited(code) or Failed(reason). -/
inductive SessionStatus where
  | running : SessionStatus
  | exited : Int → SessionStatus
  | failed : String → SessionStatus
  deriving Repr, DecidableEq

/-- Outcome of the non-blocking `child.try_wait()` call inside `poll`:
`Ok(Some(status))`, `Ok(None)` or `Err(e)`.  Child behaviour is external, so
it is an input of the model. -/
inductive WaitResult where
  | reaped : Int → WaitResult
  | stillRunning : WaitResult
  | waitErr : String → WaitResult
  deriving Repr, DecidableEq

/-- The fields of `PtySession` the lifecycle claims read.  `task_id` exists
only in the GUI variant; the daemon variant never reads it.  The PTY
handles, the writer and the ring buffer play no role in `poll`/`kill` and
are omitted. -/
structure Sess where
  id : String
  agentId : String
  taskId : Option String
  status : SessionStatus
  deriving Repr, DecidableEq

/-- `PtySession::is_running`: `status == SessionStatus::Running`. -/
def Sess.isRunning (s : Sess) : Bool :=
  decide (s.status = SessionStatus.running)

/-- `PtySession::poll`: a non-Running status is returned unchanged;
otherwise the wait outcome decides the new status (`Exited(code)` on reap,
unchanged while running, `Failed(reason)` on a wait error). -/
def Sess.poll (s : Sess) (w : WaitResult) : Sess :=
  if s.status ≠ SessionStatus.running then s
  else
    match w with
    | WaitResult.reaped code => { s with status := SessionStatus.exited code }
    | WaitResult.stillRunning => s
    | WaitResult.waitErr e => { s with status := SessionStatus.failed e }

/-- `PtySession::kill`: if the terminate signal fails, the error propagates
and the status is untouched; on success the status is forced to
`Exited(-1)`.  Whether the signal succeeds is an input of the model. -/
def Sess.kill (s : Sess) (ok : Bool) : Except String Sess :=
  if ok then Except.ok { s with status := SessionStatus.exited (-1) }
  else Except.error "kill failed"

/-- The operations a caller can perform on a session.  `poll` carries the
wait outcome and `kill` whether the terminate signal succeeded; `write`,
`nudge`, `resize` and `read_available` touch only the PTY and the ring
buffer, never `status`. -/
inductive SessOp where
  | poll : WaitResult → SessOp
  | kill : Bool → SessOp
  | write : SessOp
  | nudge : SessOp
  | resize : SessOp
  | readAvailable : SessOp

/-- Effect of one operation on the session state. -/
def Sess.step (s : Sess) : SessOp → Sess
  | SessOp.poll w => s.poll w
  | SessOp.kill ok =>
      match s.kill ok with
      | Except.ok s2 => s2
      | Except.error _ => s
  | SessOp.write => s
  | SessOp.nudge => s
  | SessOp.resize => s
  | SessOp.readAvailable => s

/-- Effect of a sequence of operations. -/
def Sess.run (s : Sess) (ops : List SessOp) : Sess :=
  ops.foldl Sess.step s

theorem poll_id (s : Sess) (w : WaitResult) : (s.poll w).id = s.id := by
  unfold Sess.poll
  split
  · rfl
  · cases w <;> rfl

theorem poll_agentId (s : Sess) (w : WaitResult) : (s.poll w).agentId = s.agentId := by
  unfold Sess.poll
  split
  · rfl
  · cases w <;> rfl

theorem poll_taskId (s : Sess) (w : WaitResult) : (s.poll w).taskId = s.taskId := by
  unfold Sess.poll
  split
  · rfl
  · cases w <;> rfl

theorem poll_of_not_running (s : Sess) (w : WaitResult)
    (h : s.status ≠ SessionStatus.running) : s.poll w = s := by
  unfold Sess.poll
  rw [if_pos h]

theorem poll_not_running_preserved (s : Sess) (w : WaitResult)
    (h : s.status ≠ SessionStatus.running) :
    (s.poll w).status ≠ SessionStatus.running := by
  rw [poll_of_not_running s w h]
  exact h

theorem step_not_running_preserved (s : Sess) (op : SessOp)
    (h : s.status ≠ SessionStatus.running) :
    (s.step op).status ≠ SessionStatus.running := by
  cases op with
  | poll w => exact poll_not_running_preserved s w h
  | kill ok =>
      cases ok with
      | true => simp [Sess.step, Sess.kill]
      | false => simpa [Sess.step, Sess.kill] using h
  | write => exact h
  | nudge => exact h
  | resize => exact h
  | readAvailable => exact h

/-- C6: terminal stickiness and kill determinism.  Once `status` is
`Exited(_)` or `Failed(_)` (i.e. not Running), no sequence of operations —
polls with arbitrary wait outcomes, kills succeeding or failing, writes,
nudges, resizes, reads — brings it back to Running; and a `kill()` that
returns success leaves `status = Exited(-1)` with `is_running() = false`,
and every subsequent poll sequence keeps `status = Exited(-1)`. -/
theorem session_terminal_sticky (s : Sess) :
    (∀ ops : List SessOp, s.status ≠ SessionStatus.running →
      (s.run ops).status ≠ SessionStatus.running) ∧
    (∀ s2, s.kill true = Except.ok s2 →
      s2.status = SessionStatus.exited (-1) ∧ s2.isRunning = false ∧
      ∀ ws : List WaitResult,
        (ws.foldl Sess.poll s2).status = SessionStatus.exited (-1) ∧
        (ws.foldl Sess.poll s2).isRunning = false) := by
  constructor
  · intro ops
    induction ops generalizing s with
    | nil => intro h; exact h
    | cons op ops ih =>
        intro h
        exact ih (s.step op) (step_not_running_preserved s op h)
  · intro s2 hk
    have hs2 : s2 = { s with status := SessionStatus.exited (-1) } := by
      simpa [Sess.kill] using hk.symm
    subst hs2
    refine ⟨rfl, by simp [Sess.isRunning], ?_⟩
    intro ws
    have key : ∀ (l : List WaitResult) (t : Sess),
        t.status = SessionStatus.exited (-1) →
        (l.foldl Sess.poll t).status = SessionStatus.exited (-1) := by
      intro l
      induction l with
      | nil => intro t ht; exact ht
      | cons w l ih =>
          intro t ht
          have hne : t.status ≠ SessionStatus.running := by rw [ht]; simp
          rw [List.foldl_cons, poll_of_not_running t w hne]
          exact ih t ht
    have h1 := key ws { s with status := SessionStatus.exited (-1) } rfl
    exact ⟨h1, by simp [Sess.isRunning, h1]⟩

/-- Witness for C6: stickiness from `Exited(0)` under a poll and a failing
kill, and kill determinism on a running session followed by two polls. -/
theorem session_terminal_sticky_witness :
    ((Sess.mk "s1" "a1" none (SessionStatus.exited 0)).run
        [SessOp.poll (WaitResult.reaped 7), SessOp.kill false]).status
      ≠ SessionStatus.running ∧
    ((Sess.mk "s2" "a2" none SessionStatus.running).kill true
        = Except.ok (Sess.mk "s2" "a2" none (SessionStatus.exited (-1))) →
      (Sess.mk "s2" "a2" none (SessionStatus.exited (-1))).status
          = SessionStatus.exited (-1) ∧
      (Sess.mk "s2" "a2" none (SessionStatus.exited (-1))).isRunning = false ∧
      ∀ ws : List WaitResult,
        ((ws.foldl Sess.poll (Sess.mk "s2" "a2" none (SessionStatus.exited (-1)))).status
            = SessionStatus.exited (-1) ∧
          (ws.foldl Sess.poll
              (Sess.mk "s2" "a2" none (SessionStatus.exited (-1)))).isRunning = false)) :=
  ⟨(session_terminal_sticky (Sess.mk "s1" "a1" none (SessionStatus.exited 0))).1
      [SessOp.poll (WaitResult.reaped 7), SessOp.kill false] (by decide),
    (session_terminal_sticky (Sess.mk "s2" "a2" none SessionStatus.running)).2
      (Sess.mk "s2" "a2" none (SessionStatus.exited (-1)))⟩

/-! ## SessionManager (src/gui/src-tauri/src/manager.rs and
src/src/daemon/manager.rs) -/

/-- `ExitedSession`: the edge record pushed by the GUI `poll_all`. -/
structure ExitedSession where
  sessionId : String
  agentId : String
  taskId : Option String
  exitCode : Int
  deriving Repr, DecidableEq

/-- The GUI `SessionManager`: a registry of sessions.  The `HashMap` is
modelled as a list of sessions whose key is the session id (`spawn` inserts
under `session.id`), so registry claims carry a no-duplicate-ids
hypothesis. -/
structure Manager where
  sessions : List Sess
  deriving Repr, DecidableEq

/-- One loop iteration of the GUI `poll_all`: remember `was_running`, poll,
and if the session just left Running, push an `ExitedSession` whose
`exit_code` is the exit code, `-1` for `Failed(_)`, and `0` otherwise. -/
def pollStep (s : Sess) (w : WaitResult) : Sess × Option ExitedSession :=
  let wasRunning := s.isRunning
  let s2 := s.poll w
  if wasRunning && !s2.isRunning then
    let exitCode : Int :=
      match s2.status with
      | SessionStatus.exited code => code
      | SessionStatus.failed _ => -1
      | _ => 0
    (s2, some (ExitedSession.mk s2.id s2.agentId s2.taskId exitCode))
  else (s2, none)

/-- The loop of the GUI `poll_all` over the session list: every session is
polled once (its wait outcome given by `o` at its id) and the new edge
records are collected in order. -/
def pollList (o : String → WaitResult) : List Sess → List Sess × List ExitedSession
  | [] => ([], [])
  | s :: rest =>
    let r := pollStep s (o s.id)
    let rr := pollList o rest
    (r.1 :: rr.1,
      match r.2 with
      | some e => e :: rr.2
      | none => rr.2)

/-- GUI `SessionManager::poll_all`: returns the sessions that just
transitioned from Running to a terminal status during this call. -/
def Manager.pollAll (m : Manager) (o : String → WaitResult) :
    Manager × List ExitedSession :=
  let r := pollList o m.sessions
  (Manager.mk r.1, r.2)

/-- A sequence of `poll_all` calls (one wait oracle per call), with all
emitted edge records concatenated in call order. -/
def Manager.pollRuns : Manager → List (String → WaitResult) →
    Manager × List ExitedSession
  | m, [] => (m, [])
  | m, o :: os =>
    ((Manager.pollRuns (m.pollAll o).1 os).1,
      (m.pollAll o).2 ++ (Manager.pollRuns (m.pollAll o).1 os).2)

/-- GUI `SessionManager::cleanup`: collects the ids of every non-running
session and removes them all. -/
def Manager.cleanup (m : Manager) : Manager × List String :=
  let exited := (m.sessions.filter (fun s => !s.isRunning)).map Sess.id
  (Manager.mk (m.sessions.filter (fun s => !(exited.contains s.id))), exited)

/-- The daemon `SessionManager` (src/src/daemon/manager.rs); daemon sessions
have no task fields, which this model never reads for them. -/
structure DaemonManager where
  sessions : List Sess
  deriving Repr, DecidableEq

/-- Daemon `SessionManager::exited_sessions`: ids of all non-running
sessions. -/
def DaemonManager.exitedSessions (m : DaemonManager) : List String :=
  (m.sessions.filter (fun s => !s.isRunning)).map Sess.id

/-- Daemon `SessionManager::cleanup`: removes only sessions whose status is
`Exited(0)` and returns their ids. -/
def DaemonManager.cleanup (m : DaemonManager) : DaemonManager × List String :=
  let successful :=
    (m.sessions.filter (fun s => s.status == SessionStatus.exited 0)).map Sess.id
  (DaemonManager.mk (m.sessions.filter (fun s => !(successful.contains s.id))),
    successful)

/-- Daemon `SessionManager::cleanup_all`: removes every non-running session
and returns their ids. -/
def DaemonManager.cleanupAll (m : DaemonManager) : DaemonManager × List String :=
  let exited := m.exitedSessions
  (DaemonManager.mk (m.sessions.filter (fun s => !(exited.contains s.id))), exited)

theorem pollStep_fst (s : Sess) (w : WaitResult) : (pollStep s w).1 = s.poll w := by
  simp only [pollStep]
  split <;> rfl

theorem pollList_cons (o : String → WaitResult) (s : Sess) (rest : List Sess) :
    pollList o (s :: rest)
      = ((pollStep s (o s.id)).1 :: (pollList o rest).1,
          match (pollStep s (o s.id)).2 with
          | some e => e :: (pollList o rest).2
          | none => (pollList o rest).2) := rfl

theorem pollStep_some (s : Sess) (w : WaitResult) (e : ExitedSession)
    (h : (pollStep s w).2 = some e) :
    e.sessionId = s.id ∧ s.isRunning = true ∧ (s.poll w).isRunning = false := by
  simp only [pollStep] at h
  revert h
  split
  · rename_i hcond
    intro h
    simp only [Bool.and_eq_true, Bool.not_eq_true'] at hcond
    injection h with h2
    subst h2
    exact ⟨poll_id s w, hcond.1, hcond.2⟩
  · intro h
    simp at h

theorem pollStep_emits (s : Sess) (w : WaitResult) (hrun : s.isRunning = true)
    (hpost : (s.poll w).isRunning = false) :
    ∃ e, (pollStep s w).2 = some e ∧ e.sessionId = s.id := by
  have hcond : (s.isRunning && !(s.poll w).isRunning) = true := by
    rw [hrun, hpost]; rfl
  refine ⟨ExitedSession.mk (s.poll w).id (s.poll w).agentId (s.poll w).taskId
      (match (s.poll w).status with
        | SessionStatus.exited code => code
        | SessionStatus.failed _ => -1
        | _ => 0), ?_, ?_⟩
  · simp only [pollStep]
    rw [if_pos hcond]
  · exact poll_id s w

theorem pollList_fst_map (o : String → WaitResult) (l : List Sess) :
    (pollList o l).1 = l.map (fun s => s.poll (o s.id)) := by
  induction l with
  | nil => rfl
  | cons s rest ih =>
      rw [pollList_cons]
      simp only [List.map_cons]
      rw [ih, pollStep_fst]

theorem pollList_ids (o : String → WaitResult) (l : List Sess) :
    (pollList o l).1.map Sess.id = l.map Sess.id := by
  rw [pollList_fst_map, List.map_map]
  induction l with
  | nil => rfl
  | cons s rest ih =>
      simp only [List.map_cons, Function.comp]
      rw [poll_id]
      exact congrArg _ ih

theorem pollList_emission_src (o : String → WaitResult) (l : List Sess) :
    ∀ e ∈ (pollList o l).2, e.sessionId ∈ l.map Sess.id := by
  induction l with
  | nil => intro e he; cases he
  | cons s rest ih =>
      intro e he
      rw [pollList_cons] at he
      simp only [List.map_cons, List.mem_cons]
      cases hstep : (pollStep s (o s.id)).2 with
      | none =>
          rw [hstep] at he
          dsimp only at he
          exact Or.inr (ih e he)
      | some e2 =>
          rw [hstep] at he
          dsimp only at he
          rcases List.mem_cons.mp he with h | h
          · rw [h]
            exact Or.inl (pollStep_some s (o s.id) e2 hstep).1
          · exact Or.inr (ih e h)

theorem pollList_countP_zero_of_not_mem (o : String → WaitResult) (l : List Sess)
    (i : String) (h : ¬ i ∈ l.map Sess.id) :
    (pollList o l).2.countP (fun e => e.sessionId == i) = 0 := by
  rw [List.countP_eq_zero]
  intro e he
  simp only [beq_iff_eq]
  intro hei
  exact h (hei ▸ pollList_emission_src o l e he)

/-- No session with the given id is running. -/
def noRunningL (i : String) (l : List Sess) : Prop :=
  ∀ s ∈ l, s.id = i → s.isRunning = false

theorem pollList_noRunning (o : String → WaitResult) (i : String) (l : List Sess)
    (h : noRunningL i l) :
    (pollList o l).2.countP (fun e => e.sessionId == i) = 0 ∧
      noRunningL i (pollList o l).1 := by
  induction l with
  | nil => exact ⟨rfl, fun s hs => absurd hs (List.not_mem_nil s)⟩
  | cons s rest ih =>
      have hrest : noRunningL i rest := fun t ht => h t (List.mem_cons_of_mem s ht)
      obtain ⟨ihc, ihn⟩ := ih hrest
      rw [pollList_cons]
      constructor
      · cases hstep : (pollStep s (o s.id)).2 with
        | none => exact ihc
        | some e =>
            dsimp only
            obtain ⟨hid, hrun, _⟩ := pollStep_some s (o s.id) e hstep
            have hne : ¬ e.sessionId = i := by
              intro hei
              have hsid : s.id = i := hid ▸ hei
              have hnr := h s (List.mem_cons_self s rest) hsid
              rw [hrun] at hnr
              cases hnr
            have hb : (e.sessionId == i) = false := beq_eq_false_iff_ne.mpr hne
            rw [List.countP_cons, hb]
            simpa using ihc
      · intro t ht hti
        dsimp only at ht
        rcases List.mem_cons.mp ht with h1 | h1
        · subst h1
          rw [pollStep_fst] at hti ⊢
          have hsid : s.id = i := by
            rw [poll_id s (o s.id)] at hti
            exact hti
          have hnr := h s (List.mem_cons_self s rest) hsid
          rw [poll_of_not_running s (o s.id) (by simpa [Sess.isRunning] using hnr)]
          exact hnr
        · exact ihn t h1 hti

/-- Single `poll_all` call: at most one edge record per session id, and if
one was emitted the session with that id is no longer running. -/
theorem pollList_call (o : String → WaitResult) (i : String) (l : List Sess)
    (hnd : (l.map Sess.id).Nodup) :
    (pollList o l).2.countP (fun e => e.sessionId == i) ≤ 1 ∧
      ((pollList o l).2.countP (fun e => e.sessionId == i) = 0 ∨
        noRunningL i (pollList o l).1) := by
  induction l with
  | nil => exact ⟨Nat.zero_le 1, Or.inl rfl⟩
  | cons s rest ih =>
      simp only [List.map_cons, List.nodup_cons] at hnd
      obtain ⟨hsni, hndr⟩ := hnd
      obtain ⟨ihb, ihd⟩ := ih hndr
      rw [pollList_cons]
      by_cases hsi : s.id = i
      · -- the head is the unique session with id i
        have hzero : (pollList o rest).2.countP (fun e => e.sessionId == i) = 0 :=
          pollList_countP_zero_of_not_mem o rest i (hsi ▸ hsni)
        cases hstep : (pollStep s (o s.id)).2 with
        | none => exact ⟨by dsimp only; rw [hzero]; omega, Or.inl hzero⟩
        | some e =>
            obtain ⟨hid, hrun, hpost⟩ := pollStep_some s (o s.id) e hstep
            constructor
            · dsimp only
              simp only [List.countP_cons, hzero]
              split <;> omega
            · refine Or.inr ?_
              intro t ht hti
              dsimp only at ht
              rcases List.mem_cons.mp ht with h1 | h1
              · subst h1
                rw [pollStep_fst]
                exact hpost
              · exfalso
                apply hsni
                rw [hsi]
                have hmem : t.id ∈ (pollList o rest).1.map Sess.id :=
                  List.mem_map_of_mem Sess.id h1
                rw [pollList_ids] at hmem
                exact hti ▸ hmem
      · -- the head has a different id: its records do not affect the count
        have hextend : noRunningL i (pollList o rest).1 →
            noRunningL i ((pollStep s (o s.id)).1 :: (pollList o rest).1) := by
          intro hnr t ht hti
          rcases List.mem_cons.mp ht with h1 | h1
          · subst h1
            exfalso
            apply hsi
            rw [pollStep_fst, poll_id] at hti
            exact hti
          · exact hnr t h1 hti
        cases hstep : (pollStep s (o s.id)).2 with
        | none =>
            dsimp only
            exact ⟨ihb, ihd.imp (fun h0 => h0) hextend⟩
        | some e =>
            obtain ⟨hid, _, _⟩ := pollStep_some s (o s.id) e hstep
            have hne : ¬ e.sessionId = i := fun hei => hsi (hid ▸ hei)
            have hb : (e.sessionId == i) = false := beq_eq_false_iff_ne.mpr hne
            dsimp only
            rw [List.countP_cons, hb]
            constructor
            · simpa using ihb
            · rcases ihd with h0 | hnr
              · exact Or.inl (by simpa using h0)
              · exact Or.inr (hextend hnr)

theorem pollAll_fst (m : Manager) (o : String → WaitResult) :
    (m.pollAll o).1.sessions = (pollList o m.sessions).1 := rfl

theorem pollAll_snd (m : Manager) (o : String → WaitResult) :
    (m.pollAll o).2 = (pollList o m.sessions).2 := rfl

theorem pollRuns_cons (m : Manager) (o : String → WaitResult)
    (os : List (String → WaitResult)) :
    m.pollRuns (o :: os)
      = (((m.pollAll o).1.pollRuns os).1,
          (m.pollAll o).2 ++ ((m.pollAll o).1.pollRuns os).2) := rfl

theorem pollRuns_noRunning (os : List (String → WaitResult)) :
    ∀ (m : Manager) (i : String), noRunningL i m.sessions →
      (m.pollRuns os).2.countP (fun e => e.sessionId == i) = 0 := by
  induction os with
  | nil => intro m i _; rfl
  | cons o os ih =>
      intro m i h
      rw [pollRuns_cons, List.countP_append, pollAll_snd]
      obtain ⟨h1, h2⟩ := pollList_noRunning o i m.sessions h
      have h3 := ih (m.pollAll o).1 i (by rw [pollAll_fst]; exact h2)
      omega

theorem pollRuns_count_le_one (os : List (String → WaitResult)) :
    ∀ (m : Manager) (i : String), (m.sessions.map Sess.id).Nodup →
      (m.pollRuns os).2.countP (fun e => e.sessionId == i) ≤ 1 := by
  induction os with
  | nil => intro m i _; exact Nat.zero_le 1
  | cons o os ih =>
      intro m i hnd
      rw [pollRuns_cons, List.countP_append, pollAll_snd]
      obtain ⟨hb, hd⟩ := pollList_call o i m.sessions hnd
      have hnd2 : ((m.pollAll o).1.sessions.map Sess.id).Nodup := by
        rw [pollAll_fst, pollList_ids]
        exact hnd
      rcases hd with h0 | hnr
      · have h1 := ih (m.pollAll o).1 i hnd2
        omega
      · have h1 := pollRuns_noRunning os (m.pollAll o).1 i
          (by rw [pollAll_fst]; exact hnr)
        omega

theorem pollList_emits_mem (o : String → WaitResult) (l : List Sess) :
    ∀ s ∈ l, s.isRunning = true → (s.poll (o s.id)).isRunning = false →
      ∃ e ∈ (pollList o l).2, e.sessionId = s.id := by
  induction l with
  | nil => intro s hs; cases hs
  | cons t rest ih =>
      intro s hs hrun hpost
      rw [pollList_cons]
      rcases List.mem_cons.mp hs with h1 | h1
      · subst h1
        obtain ⟨e, he, hid⟩ := pollStep_emits s (o s.id) hrun hpost
        rw [he]
        exact ⟨e, List.mem_cons_self e _, hid⟩
      · obtain ⟨e, he, hid⟩ := ih s h1 hrun hpost
        cases hstep : (pollStep t (o t.id)).2 with
        | none => exact ⟨e, he, hid⟩
        | some e2 =>
            dsimp only
            exact ⟨e, List.mem_cons_of_mem e2 he, hid⟩

theorem pollList_emission_edge (o : String → WaitResult) (l : List Sess) :
    ∀ e ∈ (pollList o l).2,
      ∃ s ∈ l, e.sessionId = s.id ∧ s.isRunning = true ∧
        (s.poll (o s.id)).isRunning = false := by
  induction l with
  | nil => intro e he; cases he
  | cons t rest ih =>
      intro e he
      rw [pollList_cons] at he
      cases hstep : (pollStep t (o t.id)).2 with
      | none =>
          rw [hstep] at he
          dsimp only at he
          obtain ⟨s, hmem, h⟩ := ih e he
          exact ⟨s, List.mem_cons_of_mem t hmem, h⟩
      | some e2 =>
          rw [hstep] at he
          dsimp only at he
          rcases List.mem_cons.mp he with h1 | h1
          · obtain ⟨hid, hrun, hpost⟩ := pollStep_some t (o t.id) e2 hstep
            exact ⟨t, List.mem_cons_self t rest, by rw [h1]; exact hid, hrun, hpost⟩
          · obtain ⟨s, hmem, h⟩ := ih e h1
            exact ⟨s, List.mem_cons_of_mem t hmem, h⟩

/-- C5: across any sequence of `poll_all` calls with no intervening spawns
(registry keys distinct), each session id occurs among all emitted
`ExitedSession` records at most once in the lifetime of the manager; a
session that is already terminal is never emitted by any later call; every
emitted record belongs to a session whose poll transitioned it out of
Running during that very call; and a session that transitions during a call
is emitted by that call. -/
theorem poll_edge_unique (m : Manager) (os : List (String → WaitResult))
    (i : String) (hnd : (m.sessions.map Sess.id).Nodup) :
    ((m.pollRuns os).2.countP (fun e => e.sessionId == i) ≤ 1) ∧
    (noRunningL i m.sessions →
      (m.pollRuns os).2.countP (fun e => e.sessionId == i) = 0) ∧
    (∀ o : String → WaitResult, ∀ e ∈ (m.pollAll o).2,
      ∃ s ∈ m.sessions, e.sessionId = s.id ∧ s.isRunning = true ∧
        (s.poll (o s.id)).isRunning = false) ∧
    (∀ o : String → WaitResult, ∀ s ∈ m.sessions, s.isRunning = true →
      (s.poll (o s.id)).isRunning = false →
      ∃ e ∈ (m.pollAll o).2, e.sessionId = s.id) := by
  refine ⟨pollRuns_count_le_one os m i hnd, pollRuns_noRunning os m i, ?_, ?_⟩
  · intro o e he
    rw [pollAll_snd] at he
    exact pollList_emission_edge o m.sessions e he
  · intro o s hs hrun hpost
    rw [pollAll_snd]
    exact pollList_emits_mem o m.sessions s hs hrun hpost

/-- Witness for C5: a two-session manager polled twice, with the first call
reaping one session. -/
theorem poll_edge_unique_witness :
    (((Manager.mk [Sess.mk "s1" "a1" none SessionStatus.running,
        Sess.mk "s2" "a2" none SessionStatus.running]).pollRuns
          [fun _ => WaitResult.reaped 0, fun _ => WaitResult.reaped 3]).2.countP
        (fun e => e.sessionId == "s1") ≤ 1) ∧
    ((∀ s ∈ (Manager.mk [Sess.mk "s1" "a1" none SessionStatus.running,
        Sess.mk "s2" "a2" none SessionStatus.running]).sessions,
        s.id = "s1" → s.isRunning = false) →
      ((Manager.mk [Sess.mk "s1" "a1" none SessionStatus.running,
        Sess.mk "s2" "a2" none SessionStatus.running]).pollRuns
          [fun _ => WaitResult.reaped 0, fun _ => WaitResult.reaped 3]).2.countP
        (fun e => e.sessionId == "s1") = 0) ∧
    (∀ o : String → WaitResult,
      ∀ e ∈ ((Manager.mk [Sess.mk "s1" "a1" none SessionStatus.running,
          Sess.mk "s2" "a2" none SessionStatus.running]).pollAll o).2,
        ∃ s ∈ (Manager.mk [Sess.mk "s1" "a1" none SessionStatus.running,
            Sess.mk "s2" "a2" none SessionStatus.running]).sessions,
          e.sessionId = s.id ∧ s.isRunning = true ∧
            (s.poll (o s.id)).isRunning = false) ∧
    (∀ o : String → WaitResult,
      ∀ s ∈ (Manager.mk [Sess.mk "s1" "a1" none SessionStatus.running,
          Sess.mk "s2" "a2" none SessionStatus.running]).sessions,
        s.isRunning = true → (s.poll (o s.id)).isRunning = false →
        ∃ e ∈ ((Manager.mk [Sess.mk "s1" "a1" none SessionStatus.running,
            Sess.mk "s2" "a2" none SessionStatus.running]).pollAll o).2,
          e.sessionId = s.id) :=
  poll_edge_unique
    (Manager.mk [Sess.mk "s1" "a1" none SessionStatus.running,
      Sess.mk "s2" "a2" none SessionStatus.running])
    [fun _ => WaitResult.reaped 0, fun _ => WaitResult.reaped 3] "s1" (by decide)

theorem poll_waitErr (s : Sess) (r : String)
    (hrun : s.status = SessionStatus.running) :
    s.poll (WaitResult.waitErr r) = { s with status := SessionStatus.failed r } := by
  unfold Sess.poll
  rw [if_neg (by simp [hrun])]

theorem pollStep_waitErr (s : Sess) (r : String)
    (hrun : s.status = SessionStatus.running) :
    (pollStep s (WaitResult.waitErr r)).2
      = some (ExitedSession.mk s.id s.agentId s.taskId (-1)) := by
  have hpoll := poll_waitErr s r hrun
  have hcond : (s.isRunning
      && !(s.poll (WaitResult.waitErr r)).isRunning) = true := by
    rw [hpoll]
    simp [Sess.isRunning, hrun]
  simp only [pollStep]
  rw [if_pos hcond, hpoll]

theorem pollList_waitErr (o : String → WaitResult) (l : List Sess) :
    ∀ s ∈ l, s.status = SessionStatus.running →
      ∀ r : String, o s.id = WaitResult.waitErr r →
      ∃ e ∈ (pollList o l).2, e.sessionId = s.id ∧ e.exitCode = -1 := by
  induction l with
  | nil => intro s hs; cases hs
  | cons t rest ih =>
      intro s hs hrun r ho
      rw [pollList_cons]
      rcases List.mem_cons.mp hs with h1 | h1
      · subst h1
        have hstep : (pollStep s (o s.id)).2
            = some (ExitedSession.mk s.id s.agentId s.taskId (-1)) := by
          rw [ho]
          exact pollStep_waitErr s r hrun
        rw [hstep]
        exact ⟨ExitedSession.mk s.id s.agentId s.taskId (-1),
          List.mem_cons_self _ _, rfl, rfl⟩
      · obtain ⟨e, he, hid, hcode⟩ := ih s h1 hrun r ho
        cases hstep : (pollStep t (o t.id)).2 with
        | none => exact ⟨e, he, hid, hcode⟩
        | some e2 =>
            dsimp only
            exact ⟨e, List.mem_cons_of_mem e2 he, hid, hcode⟩

/-- C9: in `poll_all`, a session whose poll transitions it from Running to
`Failed(reason)` (a wait-syscall error) is reported in the returned
sequence with `exit_code = -1`, the same conventional code as a kill. -/
theorem poll_failed_reports_minus_one (m : Manager) (o : String → WaitResult)
    (s : Sess) (hs : s ∈ m.sessions) (hrun : s.status = SessionStatus.running)
    (r : String) (ho : o s.id = WaitResult.waitErr r) :
    ∃ e ∈ (m.pollAll o).2, e.sessionId = s.id ∧ e.exitCode = -1 := by
  rw [pollAll_snd]
  exact pollList_waitErr o m.sessions s hs hrun r ho

/-- Witness for C9: a single running session whose wait call errors. -/
theorem poll_failed_reports_minus_one_witness :
    ∃ e ∈ ((Manager.mk [Sess.mk "s1" "a1" (some "t1") SessionStatus.running]).pollAll
        (fun _ => WaitResult.waitErr "no child")).2,
      e.sessionId = "s1" ∧ e.exitCode = -1 :=
  poll_failed_reports_minus_one
    (Manager.mk [Sess.mk "s1" "a1" (some "t1") SessionStatus.running])
    (fun _ => WaitResult.waitErr "no child")
    (Sess.mk "s1" "a1" (some "t1") SessionStatus.running)
    (by decide) rfl "no child" rfl

/-- Removing, from a keyed registry, the entries whose ids were collected by
filtering on `p` removes exactly the entries satisfying `p`. -/
theorem filter_by_collected_ids (l : List Sess) (p : Sess → Bool)
    (hnd : (l.map Sess.id).Nodup) :
    l.filter (fun s => !(((l.filter p).map Sess.id).contains s.id))
      = l.filter (fun s => !(p s)) := by
  apply List.filter_congr
  intro s hs
  have hinj := List.inj_on_of_nodup_map hnd
  congr 1
  by_cases hp : p s = true
  · rw [hp]
    have hmem : s.id ∈ (l.filter p).map Sess.id :=
      List.mem_map_of_mem Sess.id (List.mem_filter.mpr ⟨hs, hp⟩)
    simpa using hmem
  · have hp2 : p s = false := by revert hp; cases p s <;> simp
    rw [hp2]
    have hnmem : ¬ s.id ∈ (l.filter p).map Sess.id := by
      intro hmem
      obtain ⟨t, ht, htid⟩ := List.mem_map.mp hmem
      obtain ⟨htl, htp⟩ := List.mem_filter.mp ht
      have hts : t = s := hinj htl hs htid
      rw [hts] at htp
      rw [htp] at hp2
      cases hp2
    simpa using hnmem

/-- C7 counterexample: on the GUI manager a session with status `Exited(2)`
is removed by `cleanup()` and its id returned, although the claim says
`cleanup()` removes exactly the sessions with status `Exited(0)`. -/
theorem cleanup_policy_counterexample :
    (Manager.mk [Sess.mk "s1" "a1" none (SessionStatus.exited 2)]).cleanup.2
        = ["s1"] ∧
      (Manager.mk [Sess.mk "s1" "a1" none
          (SessionStatus.exited 2)]).cleanup.1.sessions = [] ∧
      SessionStatus.exited 2 ≠ SessionStatus.exited 0 := by
  decide

/-- C7 amended: on the daemon manager, `cleanup()` removes exactly the
sessions with status `Exited(0)` and returns their ids (so every remaining
terminal session has a non-zero exit code or Failed status), and
`cleanup_all()` removes every non-running session and returns their ids (so
no terminal sessions remain); the GUI manager's `cleanup()`, however,
removes every non-running session — it behaves like `cleanup_all`, not like
the daemon `cleanup`. -/
theorem cleanup_policy (m : DaemonManager) (g : Manager)
    (hm : (m.sessions.map Sess.id).Nodup) (hg : (g.sessions.map Sess.id).Nodup) :
    (m.cleanup.1.sessions
        = m.sessions.filter (fun s => !(s.status == SessionStatus.exited 0)) ∧
      m.cleanup.2
        = (m.sessions.filter (fun s => s.status == SessionStatus.exited 0)).map
            Sess.id ∧
      ∀ s ∈ m.cleanup.1.sessions, s.status ≠ SessionStatus.exited 0) ∧
    (m.cleanupAll.1.sessions = m.sessions.filter (fun s => s.isRunning) ∧
      m.cleanupAll.2 = (m.sessions.filter (fun s => !s.isRunning)).map Sess.id ∧
      ∀ s ∈ m.cleanupAll.1.sessions, s.isRunning = true) ∧
    (g.cleanup.1.sessions = g.sessions.filter (fun s => s.isRunning) ∧
      g.cleanup.2 = (g.sessions.filter (fun s => !s.isRunning)).map Sess.id) := by
  have hde : m.cleanup.1.sessions
      = m.sessions.filter (fun s => !(s.status == SessionStatus.exited 0)) := by
    have h0 : m.cleanup.1.sessions
        = m.sessions.filter (fun s =>
            !(((m.sessions.filter (fun s => s.status == SessionStatus.exited 0)).map
                Sess.id).contains s.id)) := rfl
    rw [h0, filter_by_collected_ids m.sessions _ hm]
  have hda : m.cleanupAll.1.sessions = m.sessions.filter (fun s => s.isRunning) := by
    have h0 : m.cleanupAll.1.sessions
        = m.sessions.filter (fun s =>
            !(((m.sessions.filter (fun s => !s.isRunning)).map
                Sess.id).contains s.id)) := rfl
    rw [h0, filter_by_collected_ids m.sessions _ hm]
    apply List.filter_congr
    intro s _
    simp
  have hgc : g.cleanup.1.sessions = g.sessions.filter (fun s => s.isRunning) := by
    have h0 : g.cleanup.1.sessions
        = g.sessions.filter (fun s =>
            !(((g.sessions.filter (fun s => !s.isRunning)).map
                Sess.id).contains s.id)) := rfl
    rw [h0, filter_by_collected_ids g.sessions _ hg]
    apply List.filter_congr
    intro s _
    simp
  refine ⟨⟨hde, rfl, ?_⟩, ⟨hda, rfl, ?_⟩, hgc, rfl⟩
  · intro s hsm
    rw [hde] at hsm
    have := (List.mem_filter.mp hsm).2
    simpa using this
  · intro s hsm
    rw [hda] at hsm
    exact (List.mem_filter.mp hsm).2

/-- Witness for the amended C7 on concrete managers holding one session of
each relevant status. -/
theorem cleanup_policy_witness :
    (DaemonManager.mk [Sess.mk "s1" "a1" none (SessionStatus.exited 0),
        Sess.mk "s2" "a2" none (SessionStatus.exited 3),
        Sess.mk "s3" "a3" none SessionStatus.running]).cleanup.1.sessions
        = (DaemonManager.mk [Sess.mk "s1" "a1" none (SessionStatus.exited 0),
            Sess.mk "s2" "a2" none (SessionStatus.exited 3),
            Sess.mk "s3" "a3" none SessionStatus.running]).sessions.filter
            (fun s => !(s.status == SessionStatus.exited 0)) ∧
      (DaemonManager.mk [Sess.mk "s1" "a1" none (SessionStatus.exited 0),
          Sess.mk "s2" "a2" none (SessionStatus.exited 3),
          Sess.mk "s3" "a3" none SessionStatus.running]).cleanup.2
        = ((DaemonManager.mk [Sess.mk "s1" "a1" none (SessionStatus.exited 0),
            Sess.mk "s2" "a2" none (SessionStatus.exited 3),
            Sess.mk "s3" "a3" none SessionStatus.running]).sessions.filter
            (fun s => s.status == SessionStatus.exited 0)).map Sess.id ∧
      ∀ s ∈ (DaemonManager.mk [Sess.mk "s1" "a1" none (SessionStatus.exited 0),
          Sess.mk "s2" "a2" none (SessionStatus.exited 3),
          Sess.mk "s3" "a3" none SessionStatus.running]).cleanup.1.sessions,
        s.status ≠ SessionStatus.exited 0 :=
  (cleanup_policy
    (DaemonManager.mk [Sess.mk "s1" "a1" none (SessionStatus.exited 0),
      Sess.mk "s2" "a2" none (SessionStatus.exited 3),
      Sess.mk "s3" "a3" none SessionStatus.running])
    (Manager.mk [Sess.mk "s4" "a4" none (SessionStatus.failed "boom")])
    (by decide) (by decide)).1

/-! ## WorktreeManager (src/src/worktree/mod.rs and
src/gui/src-tauri/src/worktree.rs) over an abstract git repository state -/

/-- Abstract state of the host repository as the provisioner observes it:
local branch names, names registered in git's worktree index, directory
paths present on disk, paths holding a `.git` worktree link, and the
currently checked-out branch. -/
structure GitRepo where
  branches : List String
  worktrees : List String
  dirs : List String
  gitLinked : List String
  headBranch : Option String
  deriving Repr, DecidableEq

/-- `WorktreeInfo { path, branch, agent_id }`. -/
structure WorktreeInfo where
  path : String
  branch : String
  agentId : String
  deriving Repr, DecidableEq

/-- `repo.find_worktree(agent_id)` + `worktree.prune(...)`: drop a stale
worktree registration if one exists (best-effort in the source). -/
def pruneStale (g : GitRepo) (agentId : String) : GitRepo :=
  if g.worktrees.contains agentId then
    { g with worktrees := g.worktrees.erase agentId }
  else g

/-- The GUI source's stale-branch removal: delete `branch_name` when it
exists and is not HEAD (best-effort). -/
def deleteStaleBranch (g : GitRepo) (branchName : String) : GitRepo :=
  if g.branches.contains branchName && !(g.headBranch == some branchName) then
    { g with branches := g.branches.erase branchName }
  else g

/-- `repo.branch(branch_name, base_commit, false)`: with `force = false` an
existing branch of that name is an error. -/
def createBranch (g : GitRepo) (branchName : String) : Except String GitRepo :=
  if g.branches.contains branchName then Except.error "branch already exists"
  else Except.ok { g with branches := branchName :: g.branches }

/-- `repo.worktree(agent_id, worktree_path, ref)`: fails when the name is
already registered or the path exists; on success the working tree is
materialized with its `.git` link. -/
def addWorktree (g : GitRepo) (agentId worktreePath branchName : String) :
    Except String WorktreeInfo × GitRepo :=
  if g.worktrees.contains agentId || g.dirs.contains worktreePath then
    (Except.error "worktree already exists", g)
  else
    (Except.ok (WorktreeInfo.mk worktreePath branchName agentId),
      { g with
          worktrees := agentId :: g.worktrees,
          dirs := worktreePath :: g.dirs,
          gitLinked := worktreePath :: g.gitLinked })

/-- The CLI `WorktreeManager::create_worktree` (src/src/worktree/mod.rs): no
existence checks or repair — resolve the base branch, create the new branch
(`force = false`), then add the worktree.  Results pair the `Result` with
the repository state after the call. -/
def createWorktreeCli (repoPath : String) (g : GitRepo)
    (agentId baseBranch : String) : Except String WorktreeInfo × GitRepo :=
  let worktreePath := repoPath ++ "/.rembrandt/agents/" ++ agentId
  let branchName := "rembrandt/" ++ agentId
  if !(g.branches.contains baseBranch) then
    (Except.error "base branch not found", g)
  else
    match createBranch g branchName with
    | Except.error e => (Except.error e, g)
    | Except.ok g1 => addWorktree g1 agentId worktreePath branchName

/-- The tail of the GUI `create_worktree` after the existence check: prune a
stale index entry, resolve the base branch, delete a stale non-HEAD branch,
create the branch (`force = false`) and add the worktree. -/
def createWorktreeGuiRest (g : GitRepo)
    (agentId baseBranch worktreePath branchName : String) :
    Except String WorktreeInfo × GitRepo :=
  let g1 := pruneStale g agentId
  if !(g1.branches.contains baseBranch) then
    (Except.error "base branch not found", g1)
  else
    let g2 := deleteStaleBranch g1 branchName
    match createBranch g2 branchName with
    | Except.error e => (Except.error e, g2)
    | Except.ok g3 => addWorktree g3 agentId worktreePath branchName

/-- The GUI `WorktreeManager::create_worktree`
(src/gui/src-tauri/src/worktree.rs): if the worktree path exists and holds a
valid `.git` link it is returned verbatim; if it exists without one, the
stale directory is removed first; then the create sequence runs. -/
def createWorktreeGui (repoPath : String) (g : GitRepo)
    (agentId baseBranch : String) : Except String WorktreeInfo × GitRepo :=
  let worktreePath := repoPath ++ "/.rembrandt/agents/" ++ agentId
  let branchName := "rembrandt/" ++ agentId
  if g.dirs.contains worktreePath then
    if g.gitLinked.contains worktreePath then
      (Except.ok (WorktreeInfo.mk worktreePath branchName agentId), g)
    else
      createWorktreeGuiRest { g with dirs := g.dirs.erase worktreePath }
        agentId baseBranch worktreePath branchName
  else
    createWorktreeGuiRest g agentId baseBranch worktreePath branchName

theorem addWorktree_ok (g : GitRepo) (agentId worktreePath branchName : String)
    (info : WorktreeInfo) (g2 : GitRepo)
    (h : addWorktree g agentId worktreePath branchName = (Except.ok info, g2)) :
    info = WorktreeInfo.mk worktreePath branchName agentId ∧
      g2 = { g with
              worktrees := agentId :: g.worktrees,
              dirs := worktreePath :: g.dirs,
              gitLinked := worktreePath :: g.gitLinked } := by
  unfold addWorktree at h
  by_cases hc : (g.worktrees.contains agentId || g.dirs.contains worktreePath) = true
  · rw [if_pos hc] at h
    simp at h
  · rw [if_neg hc] at h
    simp only [Prod.mk.injEq, Except.ok.injEq] at h
    exact ⟨h.1.symm, h.2.symm⟩

theorem createBranch_ok (g : GitRepo) (branchName : String) (g1 : GitRepo)
    (h : createBranch g branchName = Except.ok g1) :
    g1 = { g with branches := branchName :: g.branches } := by
  unfold createBranch at h
  by_cases hc : g.branches.contains branchName = true
  · rw [if_pos hc] at h
    cases h
  · rw [if_neg hc] at h
    injection h with h2
    exact h2.symm

theorem createWorktreeGuiRest_ok (g : GitRepo)
    (agentId baseBranch worktreePath branchName : String)
    (info : WorktreeInfo) (g2 : GitRepo)
    (h : createWorktreeGuiRest g agentId baseBranch worktreePath branchName
        = (Except.ok info, g2)) :
    info = WorktreeInfo.mk worktreePath branchName agentId ∧
      g2.dirs.contains worktreePath = true ∧
      g2.gitLinked.contains worktreePath = true := by
  unfold createWorktreeGuiRest at h
  dsimp only at h
  by_cases hb : (pruneStale g agentId).branches.contains baseBranch = true
  · rw [if_neg (by rw [hb]; simp)] at h
    cases hcb : createBranch (deleteStaleBranch (pruneStale g agentId) branchName)
        branchName with
    | error e =>
        rw [hcb] at h
        simp at h
    | ok g3 =>
        rw [hcb] at h
        dsimp only at h
        obtain ⟨hi, hg⟩ := addWorktree_ok _ _ _ _ _ _ h
        subst hg
        exact ⟨hi, by simp, by simp⟩
  · have hb2 : (pruneStale g agentId).branches.contains baseBranch = false := by
      revert hb
      cases (pruneStale g agentId).branches.contains baseBranch <;> simp
    rw [if_pos (by rw [hb2]; rfl)] at h
    simp at h

/-- C4 counterexample: the CLI `create_worktree` called twice in a row from
a fresh repository with local branch `main`: the first call succeeds, the
second fails (branch creation with `force = false` errors on the existing
`rembrandt/a1`), refuting the claim that both calls succeed. -/
theorem worktree_idempotence_counterexample :
    ((createWorktreeCli "/repo" (GitRepo.mk ["main"] [] [] [] (some "main"))
        "a1" "main").1.isOk = true) ∧
    ((createWorktreeCli "/repo"
        (createWorktreeCli "/repo" (GitRepo.mk ["main"] [] [] [] (some "main"))
          "a1" "main").2
        "a1" "main").1.isOk = false) := by
  decide

/-- C4 amended: the GUI `create_worktree` is idempotent — if a call succeeds
with `info` leaving state `g2`, calling it again returns the same `info` and
leaves `g2` untouched (so the materialized working tree is not destroyed).
The CLI `create_worktree`, by contrast, fails on the second call with a
branch-already-exists error, leaving the state unchanged. -/
theorem worktree_create_idempotent (repoPath : String) (g : GitRepo)
    (agentId baseBranch : String) (info : WorktreeInfo) (g2 : GitRepo) :
    (createWorktreeGui repoPath g agentId baseBranch = (Except.ok info, g2) →
      createWorktreeGui repoPath g2 agentId baseBranch = (Except.ok info, g2)) ∧
    (createWorktreeCli repoPath g agentId baseBranch = (Except.ok info, g2) →
      (createWorktreeCli repoPath g2 agentId baseBranch).1
          = Except.error "branch already exists" ∧
        (createWorktreeCli repoPath g2 agentId baseBranch).2 = g2) := by
  constructor
  · intro h
    have hkey : info = WorktreeInfo.mk (repoPath ++ "/.rembrandt/agents/" ++ agentId)
          ("rembrandt/" ++ agentId) agentId ∧
        g2.dirs.contains (repoPath ++ "/.rembrandt/agents/" ++ agentId) = true ∧
        g2.gitLinked.contains (repoPath ++ "/.rembrandt/agents/" ++ agentId)
          = true := by
      unfold createWorktreeGui at h
      dsimp only at h
      split_ifs at h with h1 h2
      · simp only [Prod.mk.injEq, Except.ok.injEq] at h
        obtain ⟨hi, hg⟩ := h
        subst hg
        exact ⟨hi.symm, h1, h2⟩
      · exact createWorktreeGuiRest_ok _ _ _ _ _ _ _ h
      · exact createWorktreeGuiRest_ok _ _ _ _ _ _ _ h
    obtain ⟨hinfo, hdirs, hlink⟩ := hkey
    unfold createWorktreeGui
    rw [if_pos hdirs, if_pos hlink, hinfo]
  · intro h
    unfold createWorktreeCli at h
    dsimp only at h
    by_cases hb : g.branches.contains baseBranch = true
    · rw [if_neg (by rw [hb]; simp)] at h
      cases hcb : createBranch g ("rembrandt/" ++ agentId) with
      | error e =>
          rw [hcb] at h
          simp at h
      | ok g1 =>
          rw [hcb] at h
          dsimp only at h
          obtain ⟨hi, hg⟩ := addWorktree_ok _ _ _ _ _ _ h
          have hg1 := createBranch_ok _ _ _ hcb
          have hgb : g2.branches = ("rembrandt/" ++ agentId) :: g.branches := by
            rw [hg, hg1]
          have hbase2 : g2.branches.contains baseBranch = true := by
            rw [hgb]
            simp only [List.contains_cons, hb, Bool.or_true]
          have hbr : createBranch g2 ("rembrandt/" ++ agentId)
              = Except.error "branch already exists" := by
            unfold createBranch
            rw [if_pos (by rw [hgb]; simp)]
          unfold createWorktreeCli
          dsimp only
          rw [if_neg (by rw [hbase2]; simp), hbr]
          exact ⟨rfl, rfl⟩
    · have hb2 : g.branches.contains baseBranch = false := by
        revert hb
        cases g.branches.contains baseBranch <;> simp
      rw [if_pos (by rw [hb2]; rfl)] at h
      simp at h

/-- Witness for the amended C4: a fresh repository with branch `main`. -/
theorem worktree_create_idempotent_witness :
    (createWorktreeGui "/repo" (GitRepo.mk ["main"] [] [] [] (some "main"))
        "a1" "main"
      = (Except.ok (WorktreeInfo.mk "/repo/.rembrandt/agents/a1" "rembrandt/a1" "a1"),
          GitRepo.mk ["rembrandt/a1", "main"] ["a1"] ["/repo/.rembrandt/agents/a1"]
            ["/repo/.rembrandt/agents/a1"] (some "main")) →
      createWorktreeGui "/repo"
          (GitRepo.mk ["rembrandt/a1", "main"] ["a1"] ["/repo/.rembrandt/agents/a1"]
            ["/repo/.rembrandt/agents/a1"] (some "main")) "a1" "main"
        = (Except.ok (WorktreeInfo.mk "/repo/.rembrandt/agents/a1" "rembrandt/a1" "a1"),
            GitRepo.mk ["rembrandt/a1", "main"] ["a1"] ["/repo/.rembrandt/agents/a1"]
              ["/repo/.rembrandt/agents/a1"] (some "main"))) ∧
    (createWorktreeGui "/repo" (GitRepo.mk ["main"] [] [] [] (some "main")) "a1" "main"
      = (Except.ok (WorktreeInfo.mk "/repo/.rembrandt/agents/a1" "rembrandt/a1" "a1"),
          GitRepo.mk ["rembrandt/a1", "main"] ["a1"] ["/repo/.rembrandt/agents/a1"]
            ["/repo/.rembrandt/agents/a1"] (some "main"))) :=
  ⟨(worktree_create_idempotent "/repo" (GitRepo.mk ["main"] [] [] [] (some "main"))
      "a1" "main"
      (WorktreeInfo.mk "/repo/.rembrandt/agents/a1" "rembrandt/a1" "a1")
      (GitRepo.mk ["rembrandt/a1", "main"] ["a1"] ["/repo/.rembrandt/agents/a1"]
        ["/repo/.rembrandt/agents/a1"] (some "main"))).1,
    by rfl⟩

/-! ## StateStore (src/src/state/mod.rs)

The SQLite `sessions` table is modelled as a list of rows keyed by
`agent_id` (the primary key).  `DateTime<Utc>` values are serialized with
`to_rfc3339` and parsed back with `parse_from_rfc3339`, which compose to
the identity at full nanosecond precision; the codec is therefore modelled
as storing the timestamp value itself (here a `Nat`).  The status and
isolation-mode tag codecs are modelled from the source. -/

/-- `IsolationMode` (src/src/isolation/mod.rs). -/
inductive IsolationMode where
  | branch : IsolationMode
  | worktree : IsolationMode
  deriving Repr, DecidableEq

/-- `isolation_mode_to_str`. -/
def isolationModeToStr : IsolationMode → String
  | IsolationMode.branch => "branch"
  | IsolationMode.worktree => "worktree"

/-- `isolation_mode_from_str`. -/
def isolationModeFromStr : String → Except String IsolationMode
  | "branch" => Except.ok IsolationMode.branch
  | "worktree" => Except.ok IsolationMode.worktree
  | other => Except.error ("unknown isolation mode '" ++ other ++ "'")

/-- Persisted `SessionStatus` of the v2 orchestration path. -/
inductive PersistStatus where
  | starting : PersistStatus
  | active : PersistStatus
  | idle : PersistStatus
  | completed : PersistStatus
  | failed : PersistStatus
  | stopped : PersistStatus
  deriving Repr, DecidableEq

/-- `SessionStatus::as_str`. -/
def PersistStatus.asStr : PersistStatus → String
  | PersistStatus.starting => "starting"
  | PersistStatus.active => "active"
  | PersistStatus.idle => "idle"
  | PersistStatus.completed => "completed"
  | PersistStatus.failed => "failed"
  | PersistStatus.stopped => "stopped"

/-- `SessionStatus::from_str`. -/
def PersistStatus.fromStr : String → Except String PersistStatus
  | "starting" => Except.ok PersistStatus.starting
  | "active" => Except.ok PersistStatus.active
  | "idle" => Except.ok PersistStatus.idle
  | "completed" => Except.ok PersistStatus.completed
  | "failed" => Except.ok PersistStatus.failed
  | "stopped" => Except.ok PersistStatus.stopped
  | other => Except.error ("unknown session status '" ++ other ++ "'")

/-- Persisted `SessionRecord`. -/
structure SessionRecord where
  agentId : String
  runtimeKind : String
  runtimeSessionId : Option String
  isolationMode : IsolationMode
  branchName : String
  checkoutPath : String
  taskId : Option String
  status : PersistStatus
  model : Option String
  createdAt : Nat
  updatedAt : Nat
  deriving Repr, DecidableEq

/-- A row of the `sessions` table, fields in their stored form. -/
structure SessionRow where
  agentId : String
  runtimeKind : String
  runtimeSessionId : Option String
  isolationMode : String
  branchName : String
  checkoutPath : String
  taskId : Option String
  status : String
  model : Option String
  createdAt : Nat
  updatedAt : Nat
  deriving Repr, DecidableEq

/-- The parameter list bound by `upsert_session`. -/
def serializeRow (r : SessionRecord) : SessionRow :=
  SessionRow.mk r.agentId r.runtimeKind r.runtimeSessionId
    (isolationModeToStr r.isolationMode) r.branchName r.checkoutPath r.taskId
    r.status.asStr r.model r.createdAt r.updatedAt

/-- The row mapper shared by `get_session` and `list_sessions`; tag parsing
can fail. -/
def rowToRecord (row : SessionRow) : Except String SessionRecord := do
  let mode ← isolationModeFromStr row.isolationMode
  let status ← PersistStatus.fromStr row.status
  Except.ok (SessionRecord.mk row.agentId row.runtimeKind row.runtimeSessionId
    mode row.branchName row.checkoutPath row.taskId status row.model
    row.createdAt row.updatedAt)

/-- The `StateStore`: the `sessions` and `heartbeats` tables. -/
structure Store where
  sessions : List SessionRow
  heartbeats : List (String × Nat × Option String)
  deriving Repr, DecidableEq

/-- `StateStore::upsert_session`: `INSERT … ON CONFLICT(agent_id) DO UPDATE`
of every field except `created_at`. -/
def Store.upsertSession (st : Store) (r : SessionRecord) : Store :=
  match st.sessions.find? (fun row => row.agentId == r.agentId) with
  | none => { st with sessions := st.sessions ++ [serializeRow r] }
  | some _ =>
    { st with
        sessions := st.sessions.map (fun row =>
          if row.agentId == r.agentId then
            { serializeRow r with createdAt := row.createdAt }
          else row) }

/-- `StateStore::get_session`: `SELECT … WHERE agent_id = ?1`, optional. -/
def Store.getSession (st : Store) (agentId : String) :
    Except String (Option SessionRecord) :=
  match st.sessions.find? (fun row => row.agentId == agentId) with
  | none => Except.ok none
  | some row => (rowToRecord row).map some

/-- `StateStore::touch_heartbeat`: upsert of `last_seen_at` and `detail`. -/
def Store.touchHeartbeat (st : Store) (agentId : String) (now : Nat)
    (detail : Option String) : Store :=
  match st.heartbeats.find? (fun h => h.1 == agentId) with
  | none => { st with heartbeats := st.heartbeats ++ [(agentId, now, detail)] }
  | some _ =>
    { st with
        heartbeats := st.heartbeats.map (fun h =>
          if h.1 == agentId then (agentId, now, detail) else h) }

theorem rowToRecord_serialize (R : SessionRecord) :
    rowToRecord (serializeRow R) = Except.ok R := by
  obtain ⟨a, rk, rs, mode, bn, cp, ti, status, mo, ca, ua⟩ := R
  cases mode <;> cases status <;> rfl

/-- C8 counterexample: when a record for the agent id already exists, the
upsert keeps the stored `created_at` (the `ON CONFLICT` clause updates every
field except `created_at`), so the read-back record differs from `R` on
`created_at`. -/
theorem state_round_trip_counterexample :
    ((Store.mk
        [serializeRow (SessionRecord.mk "a1" "pi" none IsolationMode.worktree
          "rembrandt/a1" "/w" none PersistStatus.starting none 1 1)]
        []).upsertSession
        (SessionRecord.mk "a1" "pi" none IsolationMode.worktree
          "rembrandt/a1" "/w" none PersistStatus.starting none 2 5)).getSession "a1"
      = Except.ok (some (SessionRecord.mk "a1" "pi" none IsolationMode.worktree
          "rembrandt/a1" "/w" none PersistStatus.starting none 1 5)) ∧
    (1 : Nat) ≠ 2 := by
  exact ⟨rfl, by decide⟩

/-- C8 amended: when the store holds no record for `R.agent_id`,
`upsert_session(R)` followed by `get_session(R.agent_id)` returns exactly
`R`: every field round-trips, `created_at` included, and `updated_at` is
stored verbatim (hence `updated_at ≥ R.updated_at`).  With a pre-existing
record, every field except `created_at` round-trips and `created_at` keeps
the stored value. -/
theorem state_round_trip (st : Store) (R : SessionRecord)
    (h : st.getSession R.agentId = Except.ok none) :
    (st.upsertSession R).getSession R.agentId = Except.ok (some R) ∧
      R.updatedAt ≥ R.updatedAt := by
  refine ⟨?_, Nat.le_refl _⟩
  unfold Store.getSession at h
  cases hf : st.sessions.find? (fun row => row.agentId == R.agentId) with
  | some row =>
      rw [hf] at h
      dsimp only at h
      cases hr : rowToRecord row with
      | error e => rw [hr] at h; simp [Except.map] at h
      | ok rec => rw [hr] at h; simp [Except.map] at h
  | none =>
      unfold Store.upsertSession
      rw [hf]
      unfold Store.getSession
      dsimp only
      rw [List.find?_append, hf]
      have hfind : List.find? (fun row => row.agentId == R.agentId)
          [serializeRow R] = some (serializeRow R) := by
        simp [List.find?, serializeRow]
      rw [Option.none_or, hfind]
      dsimp only
      rw [rowToRecord_serialize]
      rfl

/-- Witness for the amended C8: a fresh store and a fully populated
record. -/
theorem state_round_trip_witness :
    ((Store.mk [] []).upsertSession
        (SessionRecord.mk "a7" "pi" (some "rt-1") IsolationMode.branch
          "rembrandt/a7" "/repo" (some "task-9") PersistStatus.active
          (some "m1") 11 42)).getSession "a7"
      = Except.ok (some (SessionRecord.mk "a7" "pi" (some "rt-1")
          IsolationMode.branch "rembrandt/a7" "/repo" (some "task-9")
          PersistStatus.active (some "m1") 11 42)) ∧
    (42 : Nat) ≥ 42 :=
  state_round_trip (Store.mk [] [])
    (SessionRecord.mk "a7" "pi" (some "rt-1") IsolationMode.branch
      "rembrandt/a7" "/repo" (some "task-9") PersistStatus.active
      (some "m1") 11 42) rfl

/-! ## Orchestrator (src/src/orchestrator/mod.rs, src/src/isolation/mod.rs)

The runtime adapter is external: the outcome of its single `spawn` (resp.
`send_message`) call during an orchestrator operation is an input of the
model.  The world bundles the abstract git repository and the state store;
`cleanupCalls` records every invocation of an isolation strategy's
`cleanup` (the orchestrator source never performs one), and `sendCalls`
records every `send_message` delivery. -/

/-- `AgentHandle` returned by a runtime adapter's `spawn`. -/
structure AgentHandle where
  runtimeSessionId : String
  agentId : String
  model : Option String
  deriving Repr, DecidableEq

/-- `IsolationContext`. -/
structure IsolationContext where
  agentId : String
  mode : IsolationMode
  repoPath : String
  checkoutPath : String
  branchName : String
  deriving Repr, DecidableEq

/-- `SpawnRequest`. -/
structure SpawnRequest where
  agentId : String
  baseBranch : String
  isolationMode : IsolationMode
  prompt : Option String
  model : Option String
  taskId : Option String
  deriving Repr, DecidableEq

/-- `SpawnResult`. -/
structure SpawnResult where
  session : SessionRecord
  workspace : IsolationContext
  deriving Repr, DecidableEq

/-- `BranchIsolation::prepare`: create `rembrandt/<agent_id>` from the base
branch when it does not exist, reuse it otherwise; `checkout_path` is the
repository itself. -/
def branchPrepare (repoPath : String) (g : GitRepo) (agentId baseBranch : String) :
    Except String IsolationContext × GitRepo :=
  let branchName := "rembrandt/" ++ agentId
  if !(g.branches.contains baseBranch) then
    (Except.error "base branch not found", g)
  else
    let g1 :=
      if !(g.branches.contains branchName) then
        { g with branches := branchName :: g.branches }
      else g
    (Except.ok (IsolationContext.mk agentId IsolationMode.branch repoPath
        repoPath branchName), g1)

/-- `WorktreeIsolation::prepare`: delegates to the CLI
`WorktreeManager::create_worktree`; `checkout_path` is the new worktree. -/
def worktreePrepare (repoPath : String) (g : GitRepo)
    (agentId baseBranch : String) : Except String IsolationContext × GitRepo :=
  match createWorktreeCli repoPath g agentId baseBranch with
  | (Except.error e, g1) => (Except.error e, g1)
  | (Except.ok info, g1) =>
    (Except.ok (IsolationContext.mk agentId IsolationMode.worktree repoPath
        info.path info.branch), g1)

/-- `Orchestrator::strategy_for` composed with `prepare`. -/
def strategyPrepare (mode : IsolationMode) (repoPath : String) (g : GitRepo)
    (agentId baseBranch : String) : Except String IsolationContext × GitRepo :=
  match mode with
  | IsolationMode.branch => branchPrepare repoPath g agentId baseBranch
  | IsolationMode.worktree => worktreePrepare repoPath g agentId baseBranch

/-- The state an orchestrator operation can read or write. -/
structure World where
  git : GitRepo
  store : Store
  cleanupCalls : List IsolationContext
  sendCalls : List (String × String)
  deriving Repr, DecidableEq

/-- `Orchestrator::spawn_agent`: prepare the workspace, spawn through the
runtime adapter (its outcome is the input `rtSpawn`), then build the
SessionRecord (status Starting, both timestamps `now`), upsert it and touch
the heartbeat.  A failing runtime spawn propagates with `?`: the error is
returned with the workspace already provisioned and nothing rolled back. -/
def Orchestrator.spawnAgent (repoPath runtimeName : String) (w : World)
    (req : SpawnRequest) (rtSpawn : Except String AgentHandle) (now : Nat) :
    Except String SpawnResult × World :=
  match strategyPrepare req.isolationMode repoPath w.git req.agentId
      req.baseBranch with
  | (Except.error e, g1) => (Except.error e, { w with git := g1 })
  | (Except.ok workspace, g1) =>
    let w1 := { w with git := g1 }
    match rtSpawn with
    | Except.error e => (Except.error e, w1)
    | Except.ok handle =>
      let session : SessionRecord :=
        SessionRecord.mk req.agentId runtimeName (some handle.runtimeSessionId)
          workspace.mode workspace.branchName workspace.checkoutPath req.taskId
          PersistStatus.starting handle.model now now
      let w2 := { w1 with
        store := (w1.store.upsertSession session).touchHeartbeat req.agentId now
          (some "spawned") }
      (Except.ok (SpawnResult.mk session workspace), w2)

/-- `Orchestrator::steer_agent`: if a record exists and carries a
runtime_session_id, deliver the message through the adapter (outcome
`sendResult`) and touch the heartbeat on success; otherwise return Ok
without doing anything. -/
def Orchestrator.steerAgent (w : World) (agentId message : String)
    (sendResult : Except String Unit) (now : Nat) : Except String Unit × World :=
  match w.store.getSession agentId with
  | Except.error e => (Except.error e, w)
  | Except.ok none => (Except.ok (), w)
  | Except.ok (some record) =>
    match record.runtimeSessionId with
    | none => (Except.ok (), w)
    | some rsid =>
      match sendResult with
      | Except.error e =>
          (Except.error e, { w with sendCalls := (rsid, message) :: w.sendCalls })
      | Except.ok _ =>
          (Except.ok (),
            { w with
                sendCalls := (rsid, message) :: w.sendCalls,
                store := w.store.touchHeartbeat agentId now (some "message-sent") })

/-- C2 counterexample: worktree-mode spawn in a fresh repository whose
runtime spawn fails.  The error propagates and no SessionRecord is
inserted, but the isolation cleanup is never invoked and the provisioned
branch `rembrandt/a1` and worktree `a1` remain — `spawn_agent` has no
rollback path. -/
theorem spawn_rollback_counterexample :
    (Orchestrator.spawnAgent "/repo" "pi"
        (World.mk (GitRepo.mk ["main"] [] [] [] (some "main")) (Store.mk [] []) [] [])
        (SpawnRequest.mk "a1" "main" IsolationMode.worktree none none none)
        (Except.error "runtime spawn failed") 100).1
      = Except.error "runtime spawn failed" ∧
    (Orchestrator.spawnAgent "/repo" "pi"
        (World.mk (GitRepo.mk ["main"] [] [] [] (some "main")) (Store.mk [] []) [] [])
        (SpawnRequest.mk "a1" "main" IsolationMode.worktree none none none)
        (Except.error "runtime spawn failed") 100).2.store.getSession "a1"
      = Except.ok none ∧
    (Orchestrator.spawnAgent "/repo" "pi"
        (World.mk (GitRepo.mk ["main"] [] [] [] (some "main")) (Store.mk [] []) [] [])
        (SpawnRequest.mk "a1" "main" IsolationMode.worktree none none none)
        (Except.error "runtime spawn failed") 100).2.cleanupCalls = [] ∧
    (Orchestrator.spawnAgent "/repo" "pi"
        (World.mk (GitRepo.mk ["main"] [] [] [] (some "main")) (Store.mk [] []) [] [])
        (SpawnRequest.mk "a1" "main" IsolationMode.worktree none none none)
        (Except.error "runtime spawn failed") 100).2.git.branches.contains
        "rembrandt/a1" = true ∧
    (Orchestrator.spawnAgent "/repo" "pi"
        (World.mk (GitRepo.mk ["main"] [] [] [] (some "main")) (Store.mk [] []) [] [])
        (SpawnRequest.mk "a1" "main" IsolationMode.worktree none none none)
        (Except.error "runtime spawn failed") 100).2.git.worktrees.contains
        "a1" = true :=
  ⟨rfl, rfl, rfl, rfl, rfl⟩

/-- C2 amended: whenever the isolation strategy provisions the workspace and
the runtime spawn then fails, `spawn_agent` returns the runtime error, no
SessionRecord is inserted and the heartbeat is untouched (the store is
exactly the caller's store), but the isolation strategy's cleanup is NOT
called and the provisioned git state — residual branch/worktree included —
is left in place. -/
theorem spawn_rollback (repoPath runtimeName : String) (w : World)
    (req : SpawnRequest) (err : String) (now : Nat) (ctx : IsolationContext)
    (g1 : GitRepo)
    (hprep : strategyPrepare req.isolationMode repoPath w.git req.agentId
        req.baseBranch = (Except.ok ctx, g1)) :
    Orchestrator.spawnAgent repoPath runtimeName w req (Except.error err) now
      = (Except.error err, { w with git := g1 }) := by
  unfold Orchestrator.spawnAgent
  rw [hprep]

/-- Witness for the amended C2: the concrete failing spawn of the
counterexample, with the provisioning hypothesis discharged by
computation. -/
theorem spawn_rollback_witness :
    Orchestrator.spawnAgent "/repo" "pi"
        (World.mk (GitRepo.mk ["main"] [] [] [] (some "main")) (Store.mk [] []) [] [])
        (SpawnRequest.mk "a1" "main" IsolationMode.worktree none none none)
        (Except.error "runtime spawn failed") 100
      = (Except.error "runtime spawn failed",
          { World.mk (GitRepo.mk ["main"] [] [] [] (some "main"))
              (Store.mk [] []) [] [] with
            git := GitRepo.mk ["rembrandt/a1", "main"] ["a1"]
              ["/repo/.rembrandt/agents/a1"] ["/repo/.rembrandt/agents/a1"]
              (some "main") }) :=
  spawn_rollback "/repo" "pi"
    (World.mk (GitRepo.mk ["main"] [] [] [] (some "main")) (Store.mk [] []) [] [])
    (SpawnRequest.mk "a1" "main" IsolationMode.worktree none none none)
    "runtime spawn failed" 100
    (IsolationContext.mk "a1" IsolationMode.worktree "/repo"
      "/repo/.rembrandt/agents/a1" "rembrandt/a1")
    (GitRepo.mk ["rembrandt/a1", "main"] ["a1"] ["/repo/.rembrandt/agents/a1"]
      ["/repo/.rembrandt/agents/a1"] (some "main"))
    rfl

/-- C10: steering an agent whose stored record exists but has
`runtime_session_id = None` returns success without invoking the adapter's
`send_message` and without touching the heartbeat — the world, store
included, is unchanged. -/
theorem steer_without_runtime (w : World) (agentId message : String)
    (sendResult : Except String Unit) (now : Nat) (record : SessionRecord)
    (hget : w.store.getSession agentId = Except.ok (some record))
    (hnone : record.runtimeSessionId = none) :
    Orchestrator.steerAgent w agentId message sendResult now = (Except.ok (), w) := by
  unfold Orchestrator.steerAgent
  rw [hget]
  dsimp only
  rw [hnone]

/-- Witness for C10: a store holding one record without a runtime session
id, steered with an adapter that would fail if it were called. -/
theorem steer_without_runtime_witness :
    Orchestrator.steerAgent
        (World.mk (GitRepo.mk ["main"] [] [] [] (some "main"))
          (Store.mk [serializeRow (SessionRecord.mk "a1" "pi" none
            IsolationMode.branch "rembrandt/a1" "/repo" none
            PersistStatus.starting none 0 0)] []) [] [])
        "a1" "hello" (Except.error "messaging unsupported") 50
      = (Except.ok (),
          World.mk (GitRepo.mk ["main"] [] [] [] (some "main"))
            (Store.mk [serializeRow (SessionRecord.mk "a1" "pi" none
              IsolationMode.branch "rembrandt/a1" "/repo" none
              PersistStatus.starting none 0 0)] []) [] []) :=
  steer_without_runtime
    (World.mk (GitRepo.mk ["main"] [] [] [] (some "main"))
      (Store.mk [serializeRow (SessionRecord.mk "a1" "pi" none
        IsolationMode.branch "rembrandt/a1" "/repo" none
        PersistStatus.starting none 0 0)] []) [] [])
    "a1" "hello" (Except.error "messaging unsupported") 50
    (SessionRecord.mk "a1" "pi" none IsolationMode.branch "rembrandt/a1"
      "/repo" none PersistStatus.starting none 0 0)
    rfl rfl

end Rembrandt
